import Mathlib

/-!
# Verification of the `hmf` MassFunction core (src/hmf/hmf.py)

A shallow embedding of the `MassFunction` class of `src/hmf/hmf.py`
(hmf 1.5.0): its parameter validators, its cached-quantity dependency
graph, its `update` batching logic, and the derived-quantity formulas
(`fsigma`, `dndm`, `dndlnm`, `dndlog10m`, `_ngtm`, `nltm`).

Modelling conventions:
* Python floats are embedded as exact rationals (`ℚ`) where the code is
  pure arithmetic, and as reals (`ℝ`) where transcendental constants
  (`np.log`, `10 ** x` for fractional `x`) appear.
* The external collaborators that are not part of this repository slice
  (`transfer`, `cosmolopy`, `tools`, `fitting_functions`,
  `scipy.integrate.simps`, splines) are abstracted as function
  parameters, following the spec's "external interfaces" section.
* The `_cache` module (`set_property` / `cached_property`) is imported
  by `src/hmf/hmf.py` but its source is not in the repository slice, so
  its get-or-compute / invalidate-transitive-closure semantics are
  modelled from the spec; the *edges* of the dependency graph are taken
  from the decorator arguments that do appear in `src/hmf/hmf.py`.
-/

namespace Hmf

/-- The derived (cached) quantities of `MassFunction`, one constructor per
`@cached_property` in src/hmf/hmf.py (`sigma_0` stands for `_sigma_0`,
`dlnsdlnm` for `_dlnsdlnm`). -/
inductive Q where
  | delta_halo
  | sigma_0
  | dlnsdlnm
  | sigma
  | lnsigma
  | n_eff
  | fsigma
  | dndm
  | dndlnm
  | dndlog10m
  | ngtm
  | nltm
  | mgtm
  | mltm
  | how_big
deriving DecidableEq

/-- Direct downstream edges of each cached quantity: the arguments of its
`@cached_property(...)` decorator in src/hmf/hmf.py (the quantities that
must also be invalidated when this one is invalidated). -/
def children : Q → List Q
  | .delta_halo => [.fsigma]
  | .sigma_0 => [.dlnsdlnm, .sigma]
  | .dlnsdlnm => [.dndm, .n_eff]
  | .sigma => [.fsigma, .lnsigma]
  | .lnsigma => [.fsigma]
  | .n_eff => []
  | .fsigma => [.dndm]
  | .dndm => [.dndlnm, .dndlog10m]
  | .dndlnm => [.ngtm, .nltm, .mgtm, .mltm, .how_big]
  | .dndlog10m => []
  | .ngtm => [.how_big]
  | .nltm => []
  | .mgtm => []
  | .mltm => []
  | .how_big => []

/-- Downward closure of a quantity along `children`, by fuel (the graph is a
DAG of depth well below 15, so fuel 15 reaches everything reachable). -/
def invalClosure : Nat → Q → List Q
  | 0, q => [q]
  | n + 1, q => q :: (children q).flatMap (invalClosure n)

/-- Modelled from the spec: `_cache`'s invalidate-transitive-closure (the
`_cache.py` module is not in the repository slice).  Deleting a cached
quantity evicts it and every quantity reachable from it along the
`cached_property` edges; nothing is recomputed eagerly. -/
def invalidate (q : Q) (c : Q → Bool) : Q → Bool :=
  fun x => c x && !((invalClosure 15 q).contains x)

/-- Python-level exception kinds raised by the embedded code paths. -/
inductive PyErr where
  | valueError
  | typeError
  | indexError
deriving DecidableEq

/-- The `mf_fit` parameter value: a fit name (string) or a user-supplied
callable.  For a callable the flag records whether calling it on the object
succeeds (the validator of src/hmf/hmf.py probes `val(self)` and falls back
to the string path when the call raises). -/
inductive MFFit where
  | name (s : String)
  | custom (callOk : Bool)
deriving DecidableEq

/-- Modelled from the spec: `Fits.mf_fits`, the registry of named fitting
functions (the `fitting_functions` module is not in the repository slice);
the names are those listed in the `MassFunction` docstring, `Behroozi`
excepted since the code appends it separately (`Fits.mf_fits + ["Behroozi"]`). -/
def mf_fits : List String :=
  ["PS", "ST", "SMT", "Jenkins", "Warren", "Reed03", "Reed07", "Tinker",
   "Watson", "Watson_FoF", "Crocce", "Courtin", "Angulo", "Angulo_Bound",
   "Bhattacharya"]

/-- The name of the Behroozi special-case fit. -/
def behrooziName : String := "Behroozi"

/-- The default fit name of the `MassFunction` constructor. -/
def stName : String := "ST"

/-- The kwargs key of the mass grid. -/
def keyM : String := "M"

/-- The kwargs key of the (transfer-owned) redshift. -/
def keyZ : String := "z"

/-- The kwargs key of the collapse threshold. -/
def keyDeltaC : String := "delta_c"

/-- The kwargs key of the mass-variance integration scheme. -/
def keyMvScheme : String := "mv_scheme"

/-- One of the accepted integration-scheme names. -/
def simpsName : String := "simps"

/-- The kwargs key of a transfer-bound cosmological parameter. -/
def keySigma8 : String := "sigma_8"

/-- The kwargs key of the halo overdensity. -/
def keyDeltaH : String := "delta_h"

/-- `np.abs`, written out so that it evaluates by kernel reduction (equal
to `|d|`, see `pyAbs_eq_abs`). -/
def pyAbs (d : ℚ) : ℚ :=
  if d < 0 then -d else d

/-- The spacing tolerance `1e-5` of the `M` setter (`mkRat` so that kernel
reduction computes with it; it equals `1 / 100000`, see `tol_eq`). -/
def tol : ℚ := mkRat 1 100000

instance {ε α : Type} [DecidableEq ε] [DecidableEq α] :
    DecidableEq (Except ε α)
  | .ok a, .ok b =>
    if h : a = b then .isTrue (by rw [h])
    else .isFalse (by intro hc; cases hc; exact h rfl)
  | .error a, .error b =>
    if h : a = b then .isTrue (by rw [h])
    else .isFalse (by intro hc; cases hc; exact h rfl)
  | .ok _, .error _ => .isFalse (by intro hc; cases hc)
  | .error _, .ok _ => .isFalse (by intro hc; cases hc)

/-- `np.diff(val, 2)`: second differences of a sequence. -/
def secondDiffs : List ℚ → List ℚ
  | a :: b :: c :: rest => (c - 2 * b + a) :: secondDiffs (b :: c :: rest)
  | _ => []

/-- The `M` setter of src/hmf/hmf.py, acting on the offered log10-mass
sequence: rejects length-1 input (`ValueError`), any absolute second
difference above `1e-5`, and `val[1] < val[0]`; a length-0 input reaches the
`val[1]` subscript and fails with `IndexError`.  On success the code stores
`10 ** val` (see `M_store`); here the accepted log-grid itself is returned. -/
def M_validate (val : List ℚ) : Except PyErr (List ℚ) :=
  if val.length = 1 then .error .valueError
  else if (secondDiffs val).any (fun d => decide (tol < pyAbs d)) then
    .error .valueError
  else
    match val with
    | v0 :: v1 :: _ => if v1 < v0 then .error .valueError else .ok val
    | _ => .error .indexError

/-- `return 10 ** val` of the `M` setter: the stored (linear) mass grid
obtained from an accepted log10 grid. -/
noncomputable def M_store (val : List ℚ) : List ℝ :=
  val.map (fun v : ℚ => (10 : ℝ) ^ ((v : ℝ)))

/-- The `delta_c` setter: must satisfy `0 < val ≤ 10`. -/
def delta_c_validate (v : ℚ) : Except PyErr ℚ :=
  if v ≤ 0 then .error .valueError
  else if 10 < v then .error .valueError
  else .ok v

/-- The `delta_h` setter: must satisfy `0 < val ≤ 10000`. -/
def delta_h_validate (v : ℚ) : Except PyErr ℚ :=
  if v ≤ 0 then .error .valueError
  else if 10000 < v then .error .valueError
  else .ok v

/-- The `mv_scheme` setter: must be one of `trapz`, `simps`, `romb`. -/
def mv_scheme_validate (v : String) : Except PyErr String :=
  if v = "trapz" ∨ v = "simps" ∨ v = "romb" then .ok v else .error .valueError

/-- The `delta_wrt` setter: must be `mean` or `crit`. -/
def delta_wrt_validate (v : String) : Except PyErr String :=
  if v = "mean" ∨ v = "crit" then .ok v else .error .valueError

/-- The `z2` setter: `None` passes through; otherwise the value must exceed
the current `transfer.z` (passed in as `z`). -/
def z2_validate (z : ℚ) (v : Option ℚ) : Except PyErr (Option ℚ) :=
  match v with
  | none => .ok none
  | some x => if x ≤ z then .error .valueError else .ok (some x)

/-- The `nz` setter: `None` passes through; otherwise the integer must be
`≥ 1` (the `int(val)` coercion is modelled by taking the input as `ℤ`). -/
def nz_validate (v : Option ℤ) : Except PyErr (Option ℤ) :=
  match v with
  | none => .ok none
  | some n => if n < 1 then .error .valueError else .ok (some n)

/-- The `cut_fit` setter: `isinstance(val, bool)` always holds on `Bool`. -/
def cut_fit_validate (v : Bool) : Except PyErr Bool := .ok v

/-- The `mf_fit` setter: probe the value as a callable; on failure treat it
as a string which must be in `Fits.mf_fits + ["Behroozi"]`. -/
def mf_fit_validate (v : MFFit) : Except PyErr MFFit :=
  match v with
  | .custom true => .ok v
  | .custom false => .error .valueError
  | .name s =>
    if mf_fits.contains s ∨ s = behrooziName then .ok v else .error .valueError

/-- The mutable state of a `MassFunction` instance: the stored core
parameters (the nine `@set_property` attributes of src/hmf/hmf.py), the
external collaborator's redshift `transfer.z`, and which derived quantities
are currently cached.  The mass grid is stored as the accepted log10 grid
(the code stores `10 ** val`; see `M_store`). -/
structure MFState where
  M_log : List ℚ
  delta_c : ℚ
  delta_h : ℚ
  delta_wrt : String
  mv_scheme : String
  cut_fit : Bool
  z2 : Option ℚ
  nz : Option ℤ
  mf_fit : MFFit
  z : ℚ
  cached : Q → Bool

/-- A value offered in an `update(**kwargs)` batch (Python is dynamically
typed; a core key paired with the wrong variant fails as a type error). -/
inductive UVal where
  | q (x : ℚ)
  | s (x : String)
  | b (x : Bool)
  | oq (x : Option ℚ)
  | oz (x : Option ℤ)
  | fit (f : MFFit)
  | grid (g : List ℚ)
deriving DecidableEq

/-- The kwargs keys owned by `MassFunction` itself (those for which
`"_MassFunction__" + key in self.__dict__`, i.e. the `@set_property`
attributes). -/
def coreKeys : List String :=
  ["M", "delta_c", "delta_h", "delta_wrt", "mv_scheme", "cut_fit",
   "z2", "nz", "mf_fit"]

/-- The `@set_property(label)` decorator argument of each core parameter:
the cached quantity invalidated when that parameter is successfully set. -/
def paramLabel : String → Q
  | "M" => .sigma_0
  | "delta_c" => .fsigma
  | "delta_h" => .delta_halo
  | "delta_wrt" => .delta_halo
  | "mv_scheme" => .sigma_0
  | "cut_fit" => .fsigma
  | "z2" => .dndm
  | "nz" => .dndm
  | "mf_fit" => .fsigma
  | _ => .dndm

/-- Invalidate a parameter's label quantity (and its closure) in a state. -/
def invalState (q : Q) (s : MFState) : MFState :=
  { s with cached := invalidate q s.cached }

/-- Modelled from the spec together with the validators of src/hmf/hmf.py:
`set_property`'s `setattr` path (the `_cache.py` module is not in the
repository slice).  Validate the offered value; on success store it and
invalidate the parameter's label quantity transitively; on failure raise,
leaving the state untouched. -/
def setCore (s : MFState) (k : String) (v : UVal) : Except PyErr MFState :=
  if k = "M" then
    match v with
    | .grid g => (M_validate g).map
        (fun g0 => invalState .sigma_0 { s with M_log := g0 })
    | _ => .error .typeError
  else if k = "delta_c" then
    match v with
    | .q x => (delta_c_validate x).map
        (fun x0 => invalState .fsigma { s with delta_c := x0 })
    | _ => .error .typeError
  else if k = "delta_h" then
    match v with
    | .q x => (delta_h_validate x).map
        (fun x0 => invalState .delta_halo { s with delta_h := x0 })
    | _ => .error .typeError
  else if k = "delta_wrt" then
    match v with
    | .s x => (delta_wrt_validate x).map
        (fun x0 => invalState .delta_halo { s with delta_wrt := x0 })
    | _ => .error .typeError
  else if k = "mv_scheme" then
    match v with
    | .s x => (mv_scheme_validate x).map
        (fun x0 => invalState .sigma_0 { s with mv_scheme := x0 })
    | _ => .error .typeError
  else if k = "cut_fit" then
    match v with
    | .b x => (cut_fit_validate x).map
        (fun x0 => invalState .fsigma { s with cut_fit := x0 })
    | _ => .error .typeError
  else if k = "z2" then
    match v with
    | .oq x => (z2_validate s.z x).map
        (fun x0 => invalState .dndm { s with z2 := x0 })
    | _ => .error .typeError
  else if k = "nz" then
    match v with
    | .oz x => (nz_validate x).map
        (fun x0 => invalState .dndm { s with nz := x0 })
    | _ => .error .typeError
  else if k = "mf_fit" then
    match v with
    | .fit f => (mf_fit_validate f).map
        (fun f0 => invalState .fsigma { s with mf_fit := f0 })
    | _ => .error .typeError
  else
    .error .typeError

/-- `val != self.transfer.z` for the `z` entry of an update batch (a value
of a non-numeric variant compares unequal to the stored redshift). -/
def zDiffers (zval : ℚ) : UVal → Bool
  | .q v => v != zval
  | _ => true

/-- One iteration of the `for key, val in kwargs` loop of `update` in
src/hmf/hmf.py: a core key is `setattr`-ed (validated, committed, label
invalidated); independently, the key `z` with a value different from the
current `transfer.z` triggers `del self.sigma`. -/
def updateStep (s : MFState) (kv : String × UVal) : Except PyErr MFState :=
  match (if coreKeys.contains kv.1 then setCore s kv.1 kv.2 else .ok s) with
  | .error e => .error e
  | .ok s1 =>
    if kv.1 = "z" ∧ zDiffers s1.z kv.2 = true then
      .ok (invalState .sigma s1)
    else
      .ok s1

/-- The kwargs loop of `update`: applied sequentially, stopping at the first
exception (which leaves the state as it stood at that point). -/
def loopPhase (s : MFState) : List (String × UVal) → Option PyErr × MFState
  | [] => (none, s)
  | kv :: rest =>
    match updateStep s kv with
    | .ok s1 => loopPhase s1 rest
    | .error e => (some e, s)

/-- `the_rest`: the batch entries not owned by `MassFunction`, destined for
the `Transfer` collaborator. -/
def nonCore (batch : List (String × UVal)) : List (String × UVal) :=
  batch.filter (fun kv => !(coreKeys.contains kv.1))

/-- Modelled from the spec: one entry forwarded to the external
`Transfer.update` (the `transfer` module is not in the repository slice);
of its state only the redshift `z` is part of this model. -/
def transferStep (st : MFState) (kv : String × UVal) : MFState :=
  if kv.1 = "z" then
    match kv.2 with
    | .q v => { st with z := v }
    | _ => st
  else st

/-- Forward `the_rest` to the external `Transfer.update`. -/
def transferApply (s : MFState) (rest : List (String × UVal)) : MFState :=
  rest.foldl transferStep s

/-- The batch-level deletions of `update` after the kwargs loop: if any
entry is transfer-bound, `del self.delta_halo`; if more than one
transfer-bound entry, or exactly one which is not `z`,
`del self._sigma_0`. -/
def postInval (batch : List (String × UVal)) (s1 : MFState) : MFState :=
  if 1 < (nonCore batch).length ∨
      ((nonCore batch).length = 1 ∧
       ¬ (nonCore batch).any (fun kv => kv.1 = "z")) then
    invalState .sigma_0
      (if 0 < (nonCore batch).length then invalState .delta_halo s1 else s1)
  else
    (if 0 < (nonCore batch).length then invalState .delta_halo s1 else s1)

/-- `MassFunction.update(**kwargs)` of src/hmf/hmf.py: run the kwargs loop;
apply the batch-level deletions; finally forward `the_rest` to
`Transfer.update`.  Returns the raised exception (if any) together with the
object's state, which on an exception keeps every change applied before the
failure. -/
def update (s : MFState) (batch : List (String × UVal)) :
    Option PyErr × MFState :=
  match loopPhase s batch with
  | (some e, s1) => (some e, s1)
  | (none, s1) => (none, transferApply (postInval batch s1) (nonCore batch))

/-- Number of `NaN` entries of a multiplicity-function array; a fit outside
its domain of validity yields `NaN` (`none`) entries. -/
def countNan (l : List (Option ℚ)) : Nat :=
  (l.filter (fun x => x.isNone)).length

/-- The `fsigma` computation of src/hmf/hmf.py.  The fit itself (named fit
dispatched through `fitting_functions.Fits`, or the user callable) is an
external collaborator, abstracted as a function of the `cut_fit` flag.
Compute once with the current flag; if strictly more than 80% of the
entries are `NaN`, log a warning, persistently set `cut_fit = False`, and
recompute once.  Returns the array, the new `cut_fit` flag, and whether the
warning was logged. -/
def fsigma_code (fit : Bool → List (Option ℚ)) (cut : Bool) :
    List (Option ℚ) × Bool × Bool :=
  let f1 := fit cut
  if (4 : ℚ) / 5 * f1.length < countNan f1 then
    (fit false, false, true)
  else
    (f1, cut, false)

/-- The elementwise `fsigma * mean_dens * |dlnsdlnm| / M ** 2` array of the
`dndm` computation. -/
def dndm_base : List ℚ → List ℚ → List ℚ → ℚ → List ℚ
  | f :: fs, d :: ds, m :: ms, rho =>
    (f * rho * pyAbs d / m ^ 2) :: dndm_base fs ds ms rho
  | _, _, _, _ => []

/-- The spec's formula for the differential number density, stated as an
indexed map over the mass grid: entry `i` is `f(σ)·ρ̄·|dlnσ/dlnM|/M²` at
grid point `i`. -/
def dndm_formula_spec (fsig dlns M : List ℚ) (rho : ℚ) : List ℚ :=
  (List.range M.length).map
    (fun i => fsig.getD i 0 * rho * |dlns.getD i 0| / (M.getD i 0) ^ 2)

/-- `np.linspace(a, b, n)`: `n` evenly spaced points from `a` to `b`
inclusive. -/
def linspace (a b : ℚ) (n : Nat) : List ℚ :=
  (List.range n).map (fun i => a + (b - a) * i / (n - 1 : Nat))

/-- The per-shell loop of the `z2` branch of `dndm` in src/hmf/hmf.py.
Arguments `zcs` are the remaining shell-centre redshifts and `zeTail` the
matching tail of `zedges` (whose comoving volumes fill `vol[i + 1]`).
Each iteration updates the object's redshift (so `fsigma` and
`_dlnsdlnm` are re-evaluated at `zz`, abstracted as functions of `z`) and
then executes `dndm[i] = fsigma * mean_dens * |dlnsdlnm| / M ** 2` where
`dndm[i]` is one cell of a 1-D float buffer: NumPy raises
`ValueError: setting an array element with a sequence` unless the
right-hand array has length 1. -/
def z2loop (fsigAt dlnsAt : ℚ → List ℚ) (M : List ℚ) (rho : ℚ)
    (mffit : MFFit) (behroozi : ℚ → List ℚ → List ℚ) (comVol : ℚ → ℚ) :
    List ℚ → List ℚ → Except PyErr (List ℚ × List ℚ)
  | [], _ => .ok ([], [])
  | zz :: zcs, zeTail =>
    let arr := dndm_base (fsigAt zz) (dlnsAt zz) M rho
    if arr.length = 1 then
      let v0 :=
        if mffit = .name behrooziName then (behroozi zz arr).headI else arr.headI
      let voli := comVol zeTail.headI
      (z2loop fsigAt dlnsAt M rho mffit behroozi comVol zcs zeTail.tail).map
        (fun p => (v0 :: p.1, voli :: p.2))
    else
      .error .valueError

/-- The `dndm` computation of src/hmf/hmf.py.  `fsigAt` and `dlnsAt` give
the cached `fsigma` and `_dlnsdlnm` arrays as they stand at a given
redshift (they are re-pulled after each `self.update(z=zz)`); `behroozi`
abstracts the Behroozi `theta`-reweighting block (which needs the external
Tinker `_ngtm`), `comVol` the `cosmolopy` comoving volume, and `simps`
`scipy.integrate.simps y x` — all external collaborators.  With a secondary
redshift `z2` the code builds `nz` shell edges (default 10), evaluates the
mass function at each shell centre, volume-weights with `simps`, and
returns the single normalized value. -/
def dndm_code (z2 : Option ℚ) (nz : Option ℤ) (mffit : MFFit)
    (fsigAt dlnsAt : ℚ → List ℚ) (M : List ℚ) (rho : ℚ) (z : ℚ)
    (behroozi : ℚ → List ℚ → List ℚ) (comVol : ℚ → ℚ)
    (simps : List ℚ → List ℚ → ℚ) : Except PyErr (List ℚ) :=
  match z2 with
  | none =>
    let base := dndm_base (fsigAt z) (dlnsAt z) M rho
    if mffit = .name behrooziName then .ok (behroozi z base) else .ok base
  | some z2v =>
    let n : Nat := (match nz with | some k => k.toNat | none => 10)
    let zedges := linspace z z2v n
    let zcentres := List.zipWith (fun a b => (a + b) / 2) zedges zedges.tail
    match z2loop fsigAt dlnsAt M rho mffit behroozi comVol zcentres
        zedges.tail with
    | .error e => .error e
    | .ok (ds, vols) =>
      let volAll := comVol z :: vols
      let shells := List.zipWith (fun a b => a - b) volAll.tail volAll
      let integrand := List.zipWith (fun a b => a * b) shells ds
      .ok [simps integrand zcentres / simps shells zcentres]

/-- `scipy.integrate.cumtrapz(y, dx)` with accumulator: the running
trapezoid-rule partial integrals (output length one less than input). -/
def cumtrapzFrom (dx : ℚ) : ℚ → List ℚ → List ℚ
  | acc, y0 :: y1 :: rest =>
    (acc + dx * (y0 + y1) / 2) :: cumtrapzFrom dx (acc + dx * (y0 + y1) / 2) (y1 :: rest)
  | _, _ => []

/-- `scipy.integrate.cumtrapz(y, dx)` (documented library contract). -/
def cumtrapz (dx : ℚ) (ys : List ℚ) : List ℚ :=
  cumtrapzFrom dx 0 ys

/-- The in-grid part of `_ngtm` in src/hmf/hmf.py:
`np.concatenate((cumtrapz(mass_function[::-1], dx)[::-1], np.zeros(1))) +
int_upper`, where `mass_function` is `dndlnm` (assumed NaN-free here, as it
is whenever it is non-negative), `dx = log(M[1]) - log(M[0])`, and
`int_upper` is the extrapolated upper-tail integral. -/
def ngtm_code (mf : List ℚ) (dx intUpper : ℚ) : List ℚ :=
  ((cumtrapz dx mf.reverse).reverse ++ [0]).map (fun a => a + intUpper)

/-- The in-grid part of `nltm` in src/hmf/hmf.py:
`np.concatenate((np.zeros(1), cumtrapz(mass_function, dx))) + int_lower`. -/
def nltm_code (mf : List ℚ) (dx intLower : ℚ) : List ℚ :=
  ((0 : ℚ) :: cumtrapz dx mf).map (fun a => a + intLower)

/-- `dndlnm = self.M * self.dndm` of src/hmf/hmf.py (elementwise). -/
def dndlnm_code (M dndm : List ℝ) : List ℝ :=
  List.zipWith (fun m d => m * d) M dndm

/-- `dndlog10m = self.M * self.dndm * np.log(10)` of src/hmf/hmf.py
(elementwise). -/
noncomputable def dndlog10m_code (M dndm : List ℝ) : List ℝ :=
  List.zipWith (fun m d => m * d * Real.log 10) M dndm

/-- Pull-dependencies of each derived quantity: the other cached quantities
its compute function in src/hmf/hmf.py reads. -/
def deps : Q → List Q
  | .delta_halo => []
  | .sigma_0 => []
  | .dlnsdlnm => [.sigma_0]
  | .sigma => [.sigma_0]
  | .lnsigma => [.sigma]
  | .n_eff => [.dlnsdlnm]
  | .fsigma => [.sigma, .lnsigma, .delta_halo]
  | .dndm => [.fsigma, .dlnsdlnm]
  | .dndlnm => [.dndm]
  | .dndlog10m => [.dndm]
  | .ngtm => [.dndlnm]
  | .nltm => [.dndlnm]
  | .mgtm => [.dndlnm]
  | .mltm => [.dndlnm]
  | .how_big => [.ngtm]

/-- A cache assignment: the stored value of each derived quantity, if
present. -/
def Cache : Type := Q → Option ℚ

/-- Store a computed value in the cache. -/
def cacheSet (s : Cache) (q : Q) (v : ℚ) : Cache :=
  fun x => if x = q then some v else s x

mutual

/-- Modelled from the spec: `cached_property.__get__` of the absent
`_cache.py` — get-or-compute with lazy recursive dependency pulling.  If
`q` is cached return the cached value unchanged; otherwise read the
dependencies (threading the cache), apply the quantity's compute function
`f` to their values, store and return the result.  `fuel` bounds the
recursion depth (the dependency DAG has depth below any fuel actually
used); at fuel 0 a cache miss computes from an empty dependency list. -/
def readQ (f : Q → List ℚ → ℚ) : Nat → Cache → Q → ℚ × Cache
  | 0, s, q =>
    (match s q with
     | some v => (v, s)
     | none => (f q [], cacheSet s q (f q [])))
  | fuel + 1, s, q =>
    (match s q with
     | some v => (v, s)
     | none =>
       let p := readDeps f fuel s (deps q)
       (f q p.1, cacheSet p.2 q (f q p.1)))

/-- Read a list of quantities left to right, threading the cache. -/
def readDeps (f : Q → List ℚ → ℚ) : Nat → Cache → List Q → List ℚ × Cache
  | _, s, [] => ([], s)
  | fuel, s, d :: ds =>
    let p := readQ f fuel s d
    let r := readDeps f fuel p.2 ds
    (p.1 :: r.1, r.2)

end

/-- A concrete valid `MassFunction` state (constructor defaults of
src/hmf/hmf.py, with every derived quantity currently cached). -/
def s0 : MFState :=
  { M_log := [0, 1, 2], delta_c := mkRat 1686 1000, delta_h := 200,
    delta_wrt := "mean", mv_scheme := "trapz", cut_fit := true,
    z2 := none, nz := none, mf_fit := .name stName, z := 0,
    cached := fun _ => true }

/-! ## Helper lemmas -/

theorem invalidate_self (q : Q) (c : Q → Bool) : invalidate q c q = false := by
  cases q <;> simp [invalidate, invalClosure, children]

theorem invalidate_preserves_false {c : Q → Bool} {x : Q} (q : Q)
    (h : c x = false) : invalidate q c x = false := by
  simp [invalidate, h]

theorem invalidate_not_mem {c : Q → Bool} {x : Q} {q : Q}
    (h : ((invalClosure 15 q).contains x) = false) : invalidate q c x = c x := by
  unfold invalidate
  rw [h]
  simp

theorem readQ_caches (f : Q → List ℚ → ℚ) (fuel : Nat) (s : Cache) (q : Q) :
    (readQ f fuel s q).2 q = some (readQ f fuel s q).1 := by
  cases fuel <;> cases hsq : s q <;> simp [readQ, hsq, cacheSet]

theorem cumtrapzFrom_mono (dx : ℚ) (hdx : 0 ≤ dx) :
    ∀ (ys : List ℚ) (acc : ℚ), (∀ y ∈ ys, 0 ≤ y) →
      List.Chain' (fun a b => a ≤ b) (cumtrapzFrom dx acc ys) ∧
      ∀ a ∈ cumtrapzFrom dx acc ys, acc ≤ a := by
  intro ys
  induction ys with
  | nil => intro acc _; exact ⟨by simp [cumtrapzFrom], by simp [cumtrapzFrom]⟩
  | cons y0 rest ih =>
    intro acc hy
    cases rest with
    | nil => exact ⟨by simp [cumtrapzFrom], by simp [cumtrapzFrom]⟩
    | cons y1 rest2 =>
      have hy0 : 0 ≤ y0 := hy y0 (by simp)
      have hy1 : 0 ≤ y1 := hy y1 (by simp)
      have hstep : 0 ≤ dx * (y0 + y1) / 2 := by positivity
      have hrest : ∀ y ∈ y1 :: rest2, 0 ≤ y := fun y hmem => hy y (by simp [hmem])
      obtain ⟨hchain, hlb⟩ := ih (acc + dx * (y0 + y1) / 2) hrest
      rw [show cumtrapzFrom dx acc (y0 :: y1 :: rest2)
            = (acc + dx * (y0 + y1) / 2)
              :: cumtrapzFrom dx (acc + dx * (y0 + y1) / 2) (y1 :: rest2)
          from rfl]
      constructor
      · exact List.chain'_cons'.2 ⟨fun b hb => hlb b (List.mem_of_mem_head? hb), hchain⟩
      · intro a ha
        rcases List.mem_cons.1 ha with h1 | h2
        · subst h1; linarith
        · have := hlb a h2; linarith

theorem cumtrapz_nonneg (dx : ℚ) (hdx : 0 ≤ dx) (ys : List ℚ)
    (hy : ∀ y ∈ ys, 0 ≤ y) : ∀ a ∈ cumtrapz dx ys, 0 ≤ a :=
  (cumtrapzFrom_mono dx hdx ys 0 hy).2

theorem pyAbs_eq_abs (d : ℚ) : pyAbs d = |d| := by
  unfold pyAbs
  split
  · exact (abs_of_neg (by assumption)).symm
  · exact (abs_of_nonneg (not_lt.1 (by assumption))).symm

theorem tol_eq : tol = 1 / 100000 := by
  unfold tol
  rw [Rat.mkRat_eq_div]
  norm_num

theorem M_validate_cons2 (v0 v1 : ℚ) (rest : List ℚ) :
    M_validate (v0 :: v1 :: rest)
      = if (secondDiffs (v0 :: v1 :: rest)).any
            (fun d => decide (tol < pyAbs d)) then
          .error .valueError
        else if v1 < v0 then .error .valueError
        else .ok (v0 :: v1 :: rest) := by
  unfold M_validate
  rw [if_neg (by simp : ¬((v0 :: v1 :: rest).length = 1))]

theorem dndm_formula_spec_cons (f0 d0 m0 rho : ℚ) (fs ds ms : List ℚ) :
    dndm_formula_spec (f0 :: fs) (d0 :: ds) (m0 :: ms) rho
      = (f0 * rho * |d0| / m0 ^ 2) :: dndm_formula_spec fs ds ms rho := by
  unfold dndm_formula_spec
  simp only [List.length_cons, List.range_succ_eq_map, List.map_cons,
    List.map_map, List.getD_cons_zero]
  congr 1

theorem dndm_base_eq_spec :
    ∀ (f d m : List ℚ) (rho : ℚ), f.length = m.length → d.length = m.length →
      dndm_base f d m rho = dndm_formula_spec f d m rho := by
  intro f d m
  induction m generalizing f d with
  | nil =>
    intro rho hf hd
    cases f with
    | nil => simp [dndm_base, dndm_formula_spec]
    | cons _ _ => simp at hf
  | cons m0 ms ih =>
    intro rho hf hd
    cases f with
    | nil => simp at hf
    | cons f0 fs =>
      cases d with
      | nil => simp at hd
      | cons d0 ds =>
        have hf2 : fs.length = ms.length := by simpa using hf
        have hd2 : ds.length = ms.length := by simpa using hd
        rw [dndm_formula_spec_cons]
        unfold dndm_base
        rw [ih fs ds rho hf2 hd2, pyAbs_eq_abs]

/-! ## Claim C3 -/

/-- C3: reading a derived quantity twice with no intervening update returns
the identical cached pair the second time: the first read leaves the value
cached, and the second read hits the cache, returning the same value and
leaving the cache unchanged (no recomputation), for any compute function,
any fuel, any starting cache, and any quantity. -/
theorem c3_read_twice_cached (f : Q → List ℚ → ℚ) (fuel fuel2 : Nat)
    (s : Cache) (q : Q) :
    readQ f fuel2 (readQ f fuel s q).2 q
      = ((readQ f fuel s q).1, (readQ f fuel s q).2) := by
  have h := readQ_caches f fuel s q
  cases fuel2 <;> simp [readQ, h]

/-! ## Claim C4 -/

/-- C4: when the first `fsigma` evaluation yields NaN on strictly more than
80% of the grid, the code warns, persistently disables `cut_fit`, and
recomputes exactly once with the cut disabled, returning that second array
(whose length is the grid length whenever the fit respects the grid). -/
theorem c4_fsigma_uncut_fallback (fit : Bool → List (Option ℚ)) (cut : Bool)
    (n : Nat) (hlf : (fit false).length = n)
    (hnan : 4 * (fit cut).length < 5 * countNan (fit cut)) :
    fsigma_code fit cut = (fit false, false, true) ∧
      (fsigma_code fit cut).1.length = n := by
  have hq : (4 : ℚ) / 5 * (fit cut).length < countNan (fit cut) := by
    have h5 : ((4 * (fit cut).length : ℕ) : ℚ) < ((5 * countNan (fit cut) : ℕ) : ℚ) := by
      exact_mod_cast hnan
    push_cast at h5
    linarith
  unfold fsigma_code
  rw [if_pos hq]
  exact ⟨rfl, hlf⟩

/-- Witness for C4 at a concrete fit: five of five entries NaN under the
cut, none without it. -/
theorem c4_witness :
    fsigma_code
        (fun b => if b then [none, none, none, none, none]
          else [some 1, some 1, some 1, some 1, some 1]) true
      = ([some 1, some 1, some 1, some 1, some 1], false, true) ∧
      (fsigma_code
        (fun b => if b then [none, none, none, none, none]
          else [some 1, some 1, some 1, some 1, some 1]) true).1.length = 5 :=
  c4_fsigma_uncut_fallback
    (fun b => if b then [none, none, none, none, none]
      else [some 1, some 1, some 1, some 1, some 1])
    true 5 (by decide) (by decide)

/-! ## Claim C6 -/

/-- C6: with no secondary redshift and a fit other than Behroozi, `dndm`
returns exactly the spec formula `f(σ)·ρ̄·|dlnσ/dlnM|/M²` over the mass
grid (stated against `dndm_formula_spec`, the indexed transcription of the
spec's formula). -/
theorem c6_dndm_formula (nz : Option ℤ) (mffit : MFFit)
    (fsigAt dlnsAt : ℚ → List ℚ) (M : List ℚ) (rho z : ℚ)
    (behroozi : ℚ → List ℚ → List ℚ) (comVol : ℚ → ℚ)
    (simps : List ℚ → List ℚ → ℚ)
    (hfit : mffit ≠ .name behrooziName)
    (hlf : (fsigAt z).length = M.length)
    (hld : (dlnsAt z).length = M.length) :
    dndm_code none nz mffit fsigAt dlnsAt M rho z behroozi comVol simps
      = .ok (dndm_formula_spec (fsigAt z) (dlnsAt z) M rho) := by
  unfold dndm_code
  rw [if_neg hfit, dndm_base_eq_spec (fsigAt z) (dlnsAt z) M rho hlf hld]

/-- Witness for C6 at a concrete state. -/
theorem c6_witness :
    dndm_code none none (.name stName) (fun _ => [1, 2]) (fun _ => [3, -4])
        [1, 2] 5 0 (fun _ l => l) (fun _ => 0) (fun _ _ => 0)
      = .ok (dndm_formula_spec [1, 2] [3, -4] [1, 2] 5) :=
  c6_dndm_formula none (.name stName) (fun _ => [1, 2]) (fun _ => [3, -4])
    [1, 2] 5 0 (fun _ l => l) (fun _ => 0) (fun _ _ => 0)
    (by decide) (by decide) (by decide)

/-! ## Claim C9 -/

/-- C9: for a non-negative differential mass function (in natural-log mass)
and the non-negative log-mass step of a validated grid, the cumulative
`ngtm` array is non-increasing along the grid and the cumulative `nltm`
array is non-decreasing, whatever the extrapolated tail integrals are. -/
theorem c9_ngtm_nltm_monotone (mf : List ℚ) (dx intUpper intLower : ℚ)
    (hmf : ∀ y ∈ mf, 0 ≤ y) (hdx : 0 ≤ dx) :
    List.Chain' (fun a b => b ≤ a) (ngtm_code mf dx intUpper) ∧
    List.Chain' (fun a b => a ≤ b) (nltm_code mf dx intLower) := by
  constructor
  · unfold ngtm_code
    rw [List.chain'_map]
    have hrev : ∀ y ∈ mf.reverse, 0 ≤ y := by
      intro y hy; exact hmf y (List.mem_reverse.1 hy)
    obtain ⟨hchain, hlb⟩ := cumtrapzFrom_mono dx hdx mf.reverse 0 hrev
    have happ : List.Chain' (fun a b => b ≤ a)
        ((cumtrapz dx mf.reverse).reverse ++ [0]) := by
      apply List.chain'_append.2
      refine ⟨?_, by simp, ?_⟩
      · rw [List.chain'_reverse]
        exact hchain
      · intro x hx y hy
        simp only [List.head?_cons, Option.mem_def, Option.some.injEq] at hy
        subst hy
        have hxmem : x ∈ (cumtrapz dx mf.reverse).reverse :=
          List.mem_of_mem_getLast? hx
        exact hlb x (List.mem_reverse.1 hxmem)
    exact happ.imp (fun a b h => add_le_add_right h intUpper)
  · unfold nltm_code
    rw [List.chain'_map]
    obtain ⟨hchain, hlb⟩ := cumtrapzFrom_mono dx hdx mf 0 hmf
    have hcons : List.Chain' (fun a b => a ≤ b) ((0 : ℚ) :: cumtrapz dx mf) :=
      List.chain'_cons'.2 ⟨fun b hb => hlb b (List.mem_of_mem_head? hb), hchain⟩
    exact hcons.imp (fun a b h => add_le_add_right h intLower)

/-- Witness for C9 at a concrete mass function and step. -/
theorem c9_witness :
    List.Chain' (fun a b => b ≤ a) (ngtm_code [1, 2, 3] 1 5) ∧
    List.Chain' (fun a b => a ≤ b) (nltm_code [1, 2, 3] 1 2) :=
  c9_ngtm_nltm_monotone [1, 2, 3] 1 5 2 (by decide) (by decide)

/-! ## Claim C10 -/

/-- C10: the log10-mass differential mass function is elementwise the
natural-log-mass one scaled by `ln 10`. -/
theorem c10_dndlog10m_scaling (M dndm : List ℝ) :
    dndlog10m_code M dndm
      = (dndlnm_code M dndm).map (fun a => a * Real.log 10) := by
  unfold dndlog10m_code dndlnm_code
  induction M generalizing dndm with
  | nil => simp
  | cons m ms ih =>
    cases dndm with
    | nil => simp
    | cons d ds => simpa using ih ds

/-! ## Claim C7 -/

theorem secondDiffs_any_iff (p : ℚ → Bool) :
    ∀ l : List ℚ, (secondDiffs l).any p = true ↔
      ∃ i, i + 2 < l.length ∧
        p (l.getD (i + 2) 0 - 2 * l.getD (i + 1) 0 + l.getD i 0) = true := by
  intro l
  induction l with
  | nil => simp [secondDiffs]
  | cons a l ih =>
    cases l with
    | nil => simp [secondDiffs]
    | cons b l2 =>
      cases l2 with
      | nil =>
        simp only [secondDiffs, List.any_nil, List.length_cons, List.length_nil]
        constructor
        · intro h; cases h
        · rintro ⟨i, hi, -⟩; omega
      | cons c rest =>
        rw [show secondDiffs (a :: b :: c :: rest)
              = (c - 2 * b + a) :: secondDiffs (b :: c :: rest) from rfl]
        rw [List.any_cons]
        simp only [Bool.or_eq_true, ih]
        constructor
        · rintro (h | ⟨j, hj, hp⟩)
          · exact ⟨0, by simp, h⟩
          · refine ⟨j + 1, by simp at hj ⊢; omega, hp⟩
        · rintro ⟨i, hi, hp⟩
          cases i with
          | zero => exact Or.inl hp
          | succ j => exact Or.inr ⟨j, by simp at hi ⊢; omega, hp⟩

/-- C7 counterexample: the constant log-grid `[0, 0, 0]` is not a strictly
increasing sequence, yet the `M` setter accepts it (the code checks only
`val[1] < val[0]` and the second differences, not strict monotonicity), so
the claim's "every non-strictly-increasing grid raises" is false on the
code. -/
theorem c7_counterexample :
    M_validate [0, 0, 0] = .ok [0, 0, 0] ∧
    ¬ List.Chain' (fun a b : ℚ => a < b) [0, 0, 0] := by
  constructor
  · rw [M_validate_cons2]
    have hany : (secondDiffs [(0 : ℚ), 0, 0]).any
        (fun d => decide (tol < pyAbs d)) = false := by
      rw [show secondDiffs [(0 : ℚ), 0, 0] = [0 - 2 * 0 + 0] from rfl]
      simp only [List.any_cons, List.any_nil, Bool.or_false]
      rw [decide_eq_false_iff_not, pyAbs_eq_abs, tol_eq]
      norm_num
    rw [if_neg (by simp [hany]), if_neg (by norm_num : ¬((0 : ℚ) < 0))]
  · simp [List.chain'_cons]

/-- C7 (amended): the `M` setter accepts exactly the offered log-grids of
length ≥ 2 whose first element does not exceed the second and all of whose
absolute second differences are at most `1e-5` (so a constant or locally
non-strict grid passes: strict increase is not enforced); any rejection
raises through `update` with the state — including the stored grid —
unchanged. -/
theorem c7_amended :
    (∀ val : List ℚ,
      M_validate val = .ok val ↔
        (2 ≤ val.length ∧ val.getD 0 0 ≤ val.getD 1 0 ∧
         ∀ i < val.length - 2,
           |val.getD (i + 2) 0 - 2 * val.getD (i + 1) 0 + val.getD i 0|
             ≤ 1 / 100000)) ∧
    (∀ (s : MFState) (g : List ℚ) (e : PyErr),
      M_validate g = .error e →
      update s [(keyM, UVal.grid g)] = (some e, s)) := by
  constructor
  · intro val
    rcases val with _ | ⟨v0, _ | ⟨v1, rest⟩⟩
    · constructor
      · intro h; simp [M_validate, secondDiffs] at h
      · rintro ⟨hlen, -, -⟩; simp at hlen
    · constructor
      · intro h; simp [M_validate] at h
      · rintro ⟨hlen, -, -⟩; simp at hlen
    · rw [M_validate_cons2]
      by_cases hany : (secondDiffs (v0 :: v1 :: rest)).any
          (fun d => decide (tol < pyAbs d)) = true
      · rw [if_pos hany]
        constructor
        · intro h; cases h
        · rintro ⟨-, -, hball⟩
          obtain ⟨i, hi, hp⟩ := (secondDiffs_any_iff _ _).1 hany
          rw [decide_eq_true_eq, pyAbs_eq_abs, tol_eq] at hp
          have hb := hball i (by simp at hi ⊢; omega)
          linarith
      · rw [if_neg hany]
        by_cases hlt : v1 < v0
        · rw [if_pos hlt]
          constructor
          · intro h; cases h
          · rintro ⟨-, hle, -⟩
            have hle2 : v0 ≤ v1 := hle
            linarith
        · rw [if_neg hlt]
          constructor
          · intro _
            refine ⟨by simp, le_of_not_lt hlt, ?_⟩
            intro i hi
            by_contra hgt
            push_neg at hgt
            apply hany
            refine (secondDiffs_any_iff _ _).2 ⟨i, by simp at hi ⊢; omega, ?_⟩
            rw [decide_eq_true_eq, pyAbs_eq_abs, tol_eq]
            linarith
          · intro _; rfl
  · intro s g e h
    have hset : setCore s keyM (UVal.grid g) = .error e := by
      have h1 : setCore s keyM (UVal.grid g)
          = (M_validate g).map
              (fun g0 => invalState .sigma_0 { s with M_log := g0 }) := rfl
      rw [h1, h]
      rfl
    have hstep : updateStep s (keyM, UVal.grid g) = .error e := by
      have h1 : updateStep s (keyM, UVal.grid g)
          = (match setCore s keyM (UVal.grid g) with
             | .error e2 => Except.error e2
             | .ok s1 =>
               if (keyM : String) = "z" ∧ zDiffers s1.z (UVal.grid g) = true then
                 .ok (invalState .sigma s1)
               else .ok s1) := rfl
      rw [h1, hset]
    have hloop : loopPhase s [(keyM, UVal.grid g)] = (some e, s) := by
      unfold loopPhase
      rw [hstep]
    unfold update
    rw [hloop]

/-- Witness for C7 (amended): the accepted evenly spaced grid `[0, 1, 2]`
satisfies the characterization; the length-1 grid `[5]` is rejected and
`update` leaves the state untouched. -/
theorem c7_witness :
    (2 ≤ ([0, 1] : List ℚ).length ∧
     ([0, 1] : List ℚ).getD 0 0 ≤ ([0, 1] : List ℚ).getD 1 0 ∧
     ∀ i < ([0, 1] : List ℚ).length - 2,
       |([0, 1] : List ℚ).getD (i + 2) 0
           - 2 * ([0, 1] : List ℚ).getD (i + 1) 0
           + ([0, 1] : List ℚ).getD i 0| ≤ 1 / 100000) ∧
    update s0 [(keyM, UVal.grid [5])] = (some PyErr.valueError, s0) :=
  ⟨(c7_amended.1 [0, 1]).1 (by decide),
   c7_amended.2 s0 [5] PyErr.valueError (by decide)⟩

/-! ## Claim C8 -/

/-- C8 counterexample: the round trip fails for the mass grid `M`.  The
log-grid `[0, 1, 2]` is accepted and stored as the linear grid
`10 ** [0, 1, 2] = [1, 10, 100]`; re-offering that read-back value to the
setter is rejected (its log-space second difference is `81 > 1e-5`),
because the setter expects log10 masses while the read-back is linear. -/
theorem c8_counterexample :
    M_validate [0, 1, 2] = .ok [0, 1, 2] ∧
    M_store [0, 1, 2] = ([1, 10, 100] : List ℚ).map (fun q : ℚ => (q : ℝ)) ∧
    M_validate [1, 10, 100] = .error PyErr.valueError := by
  refine ⟨?_, ?_, ?_⟩
  · rw [M_validate_cons2]
    have hany : (secondDiffs [(0 : ℚ), 1, 2]).any
        (fun d => decide (tol < pyAbs d)) = false := by
      rw [show secondDiffs [(0 : ℚ), 1, 2] = [2 - 2 * 1 + 0] from rfl]
      simp only [List.any_cons, List.any_nil, Bool.or_false]
      rw [decide_eq_false_iff_not, pyAbs_eq_abs, tol_eq]
      norm_num
    rw [if_neg (by simp [hany]), if_neg (by norm_num : ¬((1 : ℚ) < 0))]
  · unfold M_store
    simp only [List.map_cons, List.map_nil, List.cons.injEq, and_true]
    refine ⟨?_, ?_, ?_⟩
    · rw [show ((0 : ℚ) : ℝ) = 0 by norm_num, Real.rpow_zero]
      norm_num
    · rw [show ((1 : ℚ) : ℝ) = 1 by norm_num, Real.rpow_one]
      norm_num
    · rw [show ((2 : ℚ) : ℝ) = ((2 : ℕ) : ℝ) by norm_num, Real.rpow_natCast]
      norm_num
  · rw [M_validate_cons2]
    have hany : (secondDiffs [(1 : ℚ), 10, 100]).any
        (fun d => decide (tol < pyAbs d)) = true := by
      rw [show secondDiffs [(1 : ℚ), 10, 100] = [100 - 2 * 10 + 1] from rfl]
      simp only [List.any_cons, List.any_nil, Bool.or_false]
      rw [decide_eq_true_eq, pyAbs_eq_abs, tol_eq]
      norm_num
    rw [if_pos hany]

/-- C8 (amended): every core parameter other than the mass grid `M`
round-trips — re-offering a validly stored value to its setter succeeds and
returns the same value.  For `M` the property fails: the setter takes log10
masses but the read-back is the linear grid `10 ** val` (see the
counterexample). -/
theorem z2_validate_some (z x : ℚ) :
    z2_validate z (some x)
      = if x ≤ z then .error .valueError else .ok (some x) := rfl

theorem nz_validate_some (n : ℤ) :
    nz_validate (some n)
      = if n < 1 then .error .valueError else .ok (some n) := rfl

theorem mf_fit_validate_name (s : String) :
    mf_fit_validate (.name s)
      = if mf_fits.contains s = true ∨ s = behrooziName then
          .ok (.name s)
        else .error .valueError := rfl

theorem c8_amended :
    (∀ v w : ℚ, delta_c_validate v = .ok w → delta_c_validate w = .ok w) ∧
    (∀ v w : ℚ, delta_h_validate v = .ok w → delta_h_validate w = .ok w) ∧
    (∀ v w : String, mv_scheme_validate v = .ok w →
      mv_scheme_validate w = .ok w) ∧
    (∀ v w : String, delta_wrt_validate v = .ok w →
      delta_wrt_validate w = .ok w) ∧
    (∀ (z : ℚ) (v w : Option ℚ), z2_validate z v = .ok w →
      z2_validate z w = .ok w) ∧
    (∀ v w : Option ℤ, nz_validate v = .ok w → nz_validate w = .ok w) ∧
    (∀ v w : Bool, cut_fit_validate v = .ok w → cut_fit_validate w = .ok w) ∧
    (∀ v w : MFFit, mf_fit_validate v = .ok w → mf_fit_validate w = .ok w) := by
  refine ⟨?_, ?_, ?_, ?_, ?_, ?_, ?_, ?_⟩
  · intro v w h
    unfold delta_c_validate at h ⊢
    by_cases h1 : v ≤ 0
    · rw [if_pos h1] at h; cases h
    · rw [if_neg h1] at h
      by_cases h2 : 10 < v
      · rw [if_pos h2] at h; cases h
      · rw [if_neg h2] at h
        cases h
        rw [if_neg h1, if_neg h2]
  · intro v w h
    unfold delta_h_validate at h ⊢
    by_cases h1 : v ≤ 0
    · rw [if_pos h1] at h; cases h
    · rw [if_neg h1] at h
      by_cases h2 : 10000 < v
      · rw [if_pos h2] at h; cases h
      · rw [if_neg h2] at h
        cases h
        rw [if_neg h1, if_neg h2]
  · intro v w h
    unfold mv_scheme_validate at h ⊢
    by_cases h1 : v = "trapz" ∨ v = "simps" ∨ v = "romb"
    · rw [if_pos h1] at h
      cases h
      rw [if_pos h1]
    · rw [if_neg h1] at h; cases h
  · intro v w h
    unfold delta_wrt_validate at h ⊢
    by_cases h1 : v = "mean" ∨ v = "crit"
    · rw [if_pos h1] at h
      cases h
      rw [if_pos h1]
    · rw [if_neg h1] at h; cases h
  · intro z v w h
    cases v with
    | none =>
      cases h
      rfl
    | some x =>
      rw [z2_validate_some] at h
      by_cases h1 : x ≤ z
      · rw [if_pos h1] at h; cases h
      · rw [if_neg h1] at h
        cases h
        rw [z2_validate_some, if_neg h1]
  · intro v w h
    cases v with
    | none =>
      cases h
      rfl
    | some n =>
      rw [nz_validate_some] at h
      by_cases h1 : n < 1
      · rw [if_pos h1] at h; cases h
      · rw [if_neg h1] at h
        cases h
        rw [nz_validate_some, if_neg h1]
  · intro v w h
    cases h
    rfl
  · intro v w h
    cases v with
    | custom b =>
      cases b with
      | true => cases h; rfl
      | false => cases h
    | name s =>
      rw [mf_fit_validate_name] at h
      by_cases h1 : mf_fits.contains s = true ∨ s = behrooziName
      · rw [if_pos h1] at h
        cases h
        rw [mf_fit_validate_name, if_pos h1]
      · rw [if_neg h1] at h; cases h

/-- Witness for C8 (amended) at concrete stored values. -/
theorem c8_witness :
    delta_c_validate 2 = .ok 2 ∧
    mv_scheme_validate s0.mv_scheme = .ok s0.mv_scheme ∧
    z2_validate 0 (some 1) = .ok (some 1) ∧
    mf_fit_validate s0.mf_fit = .ok s0.mf_fit :=
  ⟨c8_amended.1 2 2 (by decide),
   c8_amended.2.2.1 s0.mv_scheme s0.mv_scheme (by decide),
   c8_amended.2.2.2.2.1 0 (some 1) (some 1) (by decide),
   c8_amended.2.2.2.2.2.2.2 s0.mf_fit s0.mf_fit (by decide)⟩

/-! ## Update machinery lemmas (for C1 and C2) -/

theorem exceptMap_ok {α β ε : Type} {f : α → β} {r : Except ε α} {b : β}
    (h : r.map f = .ok b) : ∃ a, r = .ok a ∧ b = f a := by
  cases r with
  | ok a =>
    have h2 : Except.ok (f a) = Except.ok b := h
    cases h2
    exact ⟨a, rfl, rfl⟩
  | error e => exact Except.noConfusion h

theorem setCore_ok {s : MFState} {k : String} {v : UVal} {s1 : MFState}
    (h : setCore s k v = .ok s1) :
    s1.z = s.z ∧ s1.cached = invalidate (paramLabel k) s.cached := by
  unfold setCore at h
  repeat' split at h
  all_goals try exact Except.noConfusion h
  all_goals
    obtain ⟨a, -, rfl⟩ := exceptMap_ok h
  all_goals subst_vars
  all_goals exact ⟨rfl, rfl⟩

theorem inval_sigma_preserves_sigma0 (c : Q → Bool) :
    invalidate .sigma c .sigma_0 = c .sigma_0 :=
  invalidate_not_mem (by decide)

theorem inval_halo_preserves_sigma0 (c : Q → Bool) :
    invalidate .delta_halo c .sigma_0 = c .sigma_0 :=
  invalidate_not_mem (by decide)

theorem label_preserves_sigma0 {k : String} (hc : coreKeys.contains k = true)
    (hM : k ≠ "M") (hmv : k ≠ "mv_scheme") (c : Q → Bool) :
    invalidate (paramLabel k) c .sigma_0 = c .sigma_0 := by
  have hk : k = "delta_c" ∨ k = "delta_h" ∨ k = "delta_wrt" ∨
      k = "cut_fit" ∨ k = "z2" ∨ k = "nz" ∨ k = "mf_fit" := by
    simp [coreKeys] at hc
    rcases hc with h | h | h | h | h | h | h | h | h <;>
      first
        | exact absurd h hM
        | exact absurd h hmv
        | simp [h]
  rcases hk with h | h | h | h | h | h | h <;> subst h <;>
    exact invalidate_not_mem (by decide)

theorem updateStep_ok {s : MFState} {kv : String × UVal} {s1 : MFState}
    (h : updateStep s kv = .ok s1) :
    s1.z = s.z ∧
    (∀ x, s.cached x = false → s1.cached x = false) ∧
    (kv.1 ≠ "M" → kv.1 ≠ "mv_scheme" →
      s1.cached .sigma_0 = s.cached .sigma_0) := by
  unfold updateStep at h
  by_cases hc : coreKeys.contains kv.1 = true
  · rw [if_pos hc] at h
    cases hsc : setCore s kv.1 kv.2 with
    | error e =>
      rw [hsc] at h
      exact Except.noConfusion h
    | ok s2 =>
      rw [hsc] at h
      obtain ⟨hz2, hcache2⟩ := setCore_ok hsc
      have h2 : (if kv.1 = "z" ∧ zDiffers s2.z kv.2 = true then
          Except.ok (invalState .sigma s2) else Except.ok s2)
          = Except.ok s1 := h
      split at h2
      · cases h2
        refine ⟨hz2, ?_, ?_⟩
        · intro x hx
          apply invalidate_preserves_false
          rw [hcache2]
          exact invalidate_preserves_false _ hx
        · intro hM hmv
          show invalidate .sigma s2.cached .sigma_0 = s.cached .sigma_0
          rw [inval_sigma_preserves_sigma0, hcache2,
            label_preserves_sigma0 hc hM hmv]
      · cases h2
        refine ⟨hz2, ?_, ?_⟩
        · intro x hx
          rw [hcache2]
          exact invalidate_preserves_false _ hx
        · intro hM hmv
          rw [hcache2, label_preserves_sigma0 hc hM hmv]
  · rw [if_neg hc] at h
    have h2 : (if kv.1 = "z" ∧ zDiffers s.z kv.2 = true then
        Except.ok (invalState .sigma s) else Except.ok s)
        = Except.ok s1 := h
    split at h2
    · cases h2
      exact ⟨rfl, fun x hx => invalidate_preserves_false _ hx,
        fun _ _ => inval_sigma_preserves_sigma0 _⟩
    · cases h2
      exact ⟨rfl, fun _ hx => hx, fun _ _ => rfl⟩

theorem updateStep_zdel {s s1 : MFState} {v : ℚ}
    (h : updateStep s (keyZ, UVal.q v) = .ok s1) (hne : v ≠ s.z) :
    s1.cached .sigma = false := by
  have h2 : (if (keyZ : String) = "z" ∧ zDiffers s.z (UVal.q v) = true then
      Except.ok (invalState .sigma s) else Except.ok s) = Except.ok s1 := h
  split at h2
  · cases h2
    exact invalidate_self _ _
  · rename_i hcond
    exact absurd ⟨rfl, by simp [zDiffers, hne]⟩ hcond

theorem loopPhase_cached_false (b : List (String × UVal)) :
    ∀ (s : MFState) (x : Q), s.cached x = false →
      (loopPhase s b).2.cached x = false := by
  induction b with
  | nil => intro s x hx; exact hx
  | cons kv rest ih =>
    intro s x hx
    unfold loopPhase
    cases hstep : updateStep s kv with
    | ok s2 => exact ih s2 x ((updateStep_ok hstep).2.1 x hx)
    | error e => exact hx

theorem loopPhase_z (b : List (String × UVal)) :
    ∀ s : MFState, (loopPhase s b).2.z = s.z := by
  induction b with
  | nil => intro s; rfl
  | cons kv rest ih =>
    intro s
    unfold loopPhase
    cases hstep : updateStep s kv with
    | ok s2 => exact (ih s2).trans (updateStep_ok hstep).1
    | error e => rfl

theorem loopPhase_sigma0 (b : List (String × UVal)) :
    ∀ s : MFState,
      (∀ kv ∈ b, kv.1 ≠ "M" ∧ kv.1 ≠ "mv_scheme") →
      (loopPhase s b).2.cached .sigma_0 = s.cached .sigma_0 := by
  induction b with
  | nil => intro s _; rfl
  | cons kv rest ih =>
    intro s hkeys
    unfold loopPhase
    cases hstep : updateStep s kv with
    | ok s2 =>
      have hk := hkeys kv (by simp)
      exact (ih s2 (fun kv2 h2 => hkeys kv2 (by simp [h2]))).trans
        ((updateStep_ok hstep).2.2 hk.1 hk.2)
    | error e => rfl

theorem loopPhase_zdel (b : List (String × UVal)) :
    ∀ (s s1 : MFState) (v : ℚ),
      loopPhase s b = (none, s1) → (keyZ, UVal.q v) ∈ b → v ≠ s.z →
      s1.cached .sigma = false := by
  induction b with
  | nil =>
    intro s s1 v _ hmem _
    exact absurd hmem (List.not_mem_nil _)
  | cons kv rest ih =>
    intro s s1 v h hmem hne
    unfold loopPhase at h
    cases hstep : updateStep s kv with
    | error e =>
      rw [hstep] at h
      have h2 : ((some e : Option PyErr), s) = ((none : Option PyErr), s1) := h
      exact absurd h2 (by simp)
    | ok s2 =>
      rw [hstep] at h
      have h2 : loopPhase s2 rest = (none, s1) := h
      rcases List.mem_cons.1 hmem with heq | hmem2
      · cases heq
        have hs2 : s2.cached .sigma = false := updateStep_zdel hstep hne
        have hpf := loopPhase_cached_false rest s2 .sigma hs2
        rw [h2] at hpf
        exact hpf
      · refine ih s2 s1 v h2 hmem2 ?_
        rw [(updateStep_ok hstep).1]
        exact hne

theorem update_loop_err {s : MFState} {batch : List (String × UVal)}
    {e : PyErr} {s1 : MFState} (h : loopPhase s batch = (some e, s1)) :
    update s batch = (some e, s1) := by
  unfold update
  rw [h]

theorem update_loop_ok {s : MFState} {batch : List (String × UVal)}
    {s1 : MFState} (h : loopPhase s batch = (none, s1)) :
    update s batch
      = (none, transferApply (postInval batch s1) (nonCore batch)) := by
  unfold update
  rw [h]

theorem transferStep_cached (st : MFState) (kv : String × UVal) :
    (transferStep st kv).cached = st.cached := by
  unfold transferStep
  split
  · split <;> rfl
  · rfl

theorem transferApply_cached (r : List (String × UVal)) :
    ∀ s : MFState, (transferApply s r).cached = s.cached := by
  induction r with
  | nil => intro s; rfl
  | cons kv rest ih =>
    intro s
    have h1 : transferApply s (kv :: rest)
        = transferApply (transferStep s kv) rest := rfl
    rw [h1, ih, transferStep_cached]

theorem postInval_sigma0_of_single_z {batch : List (String × UVal)}
    {s1 : MFState} {v : ℚ} (hnc : nonCore batch = [(keyZ, UVal.q v)]) :
    postInval batch s1 = invalState .delta_halo s1 := by
  unfold postInval
  rw [hnc]
  rfl

theorem postInval_sigma0_false {batch : List (String × UVal)} {s1 : MFState}
    (hcond : 1 < (nonCore batch).length ∨
      ((nonCore batch).length = 1 ∧
       ¬ ((nonCore batch).any (fun kv => decide (kv.1 = "z"))) = true)) :
    (postInval batch s1).cached .sigma_0 = false := by
  unfold postInval
  rw [if_pos hcond]
  exact invalidate_self _ _

/-! ## Claim C1 -/

/-- C1 counterexample: the claim fails on the code in two ways.
First, for the batch `{mv_scheme: "simps", z: 1}` the non-core changes are
exactly `{z}`, yet `_sigma_0` IS invalidated — by the `mv_scheme` setter
itself (`@set_property("_sigma_0")`), which the claim's "NOT invalidated"
ignores.  Second, for the batch `{z: 0}` with `z` already `0`, `delta_halo`
is invalidated but `sigma` is NOT (`del self.sigma` is guarded by
`val != self.transfer.z`), contradicting the claim's "sigma is
invalidated". -/
theorem c1_counterexample :
    ((update s0 [(keyMvScheme, UVal.s simpsName), (keyZ, UVal.q 1)]).1 = none ∧
     nonCore [(keyMvScheme, UVal.s simpsName), (keyZ, UVal.q 1)]
       = [(keyZ, UVal.q 1)] ∧
     (update s0 [(keyMvScheme, UVal.s simpsName),
        (keyZ, UVal.q 1)]).2.cached .sigma_0 = false) ∧
    ((update s0 [(keyZ, UVal.q 0)]).1 = none ∧
     nonCore [(keyZ, UVal.q 0)] = [(keyZ, UVal.q 0)] ∧
     (update s0 [(keyZ, UVal.q 0)]).2.cached .delta_halo = false ∧
     (update s0 [(keyZ, UVal.q 0)]).2.cached .sigma = true) := by decide

/-- C1 (amended): for every successful update batch whose transfer-bound
entries are exactly `{z}` with a value different from the current redshift,
and whose core entries include neither `M` nor `mv_scheme` (whose setters
themselves invalidate `_sigma_0`), the cached `delta_halo` and `sigma` are
invalidated while `_sigma_0` is untouched; and for every successful batch
with at least one transfer-bound entry whose key list is not exactly `[z]`,
`_sigma_0` is additionally invalidated. -/
theorem c1_amended :
    (∀ (s : MFState) (batch : List (String × UVal)) (v : ℚ),
      (update s batch).1 = none →
      nonCore batch = [(keyZ, UVal.q v)] →
      v ≠ s.z →
      (∀ kv ∈ batch, kv.1 ≠ "M" ∧ kv.1 ≠ "mv_scheme") →
      (update s batch).2.cached .delta_halo = false ∧
      (update s batch).2.cached .sigma = false ∧
      (update s batch).2.cached .sigma_0 = s.cached .sigma_0) ∧
    (∀ (s : MFState) (batch : List (String × UVal)),
      (update s batch).1 = none →
      nonCore batch ≠ [] →
      (nonCore batch).map Prod.fst ≠ [keyZ] →
      (update s batch).2.cached .sigma_0 = false) := by
  constructor
  · intro s batch v herr hnc hne hkeys
    cases hl : loopPhase s batch with
    | mk o s1 =>
      cases o with
      | some e =>
        rw [update_loop_err hl] at herr
        exact absurd herr (by simp)
      | none =>
        rw [update_loop_ok hl]
        show (transferApply (postInval batch s1) (nonCore batch)).cached
            .delta_halo = false ∧
          (transferApply (postInval batch s1) (nonCore batch)).cached
            .sigma = false ∧
          (transferApply (postInval batch s1) (nonCore batch)).cached
            .sigma_0 = s.cached .sigma_0
        rw [transferApply_cached, postInval_sigma0_of_single_z hnc]
        have hmem : (keyZ, UVal.q v) ∈ batch := by
          apply List.mem_of_mem_filter (p := fun kv => !(coreKeys.contains kv.1))
          show (keyZ, UVal.q v) ∈ nonCore batch
          rw [hnc]
          exact List.mem_singleton.2 rfl
        refine ⟨invalidate_self _ _, ?_, ?_⟩
        · exact invalidate_preserves_false _
            (loopPhase_zdel batch s s1 v hl hmem hne)
        · show invalidate .delta_halo s1.cached .sigma_0 = s.cached .sigma_0
          rw [inval_halo_preserves_sigma0]
          have hs0 := loopPhase_sigma0 batch s hkeys
          rw [hl] at hs0
          exact hs0
  · intro s batch herr hne1 hne2
    cases hl : loopPhase s batch with
    | mk o s1 =>
      cases o with
      | some e =>
        rw [update_loop_err hl] at herr
        exact absurd herr (by simp)
      | none =>
        rw [update_loop_ok hl]
        show (transferApply (postInval batch s1) (nonCore batch)).cached
            .sigma_0 = false
        rw [transferApply_cached]
        apply postInval_sigma0_false
        rcases hlen : (nonCore batch).length with _ | n
        · exact absurd (List.length_eq_zero.1 hlen) hne1
        · cases n with
          | zero =>
            right
            refine ⟨by omega, ?_⟩
            obtain ⟨a, ha⟩ := List.length_eq_one.1
              (show (nonCore batch).length = 1 by omega)
            intro hcontra
            rw [ha] at hcontra hne2
            simp only [List.any_cons, List.any_nil, Bool.or_false,
              decide_eq_true_eq] at hcontra
            exact hne2 (by simp [hcontra, keyZ])
          | succ m =>
            left
            omega

/-- Witness for C1 (amended): updating `delta_c` together with `z` (to a
new value) on a fully cached state preserves `_sigma_0`; updating the
transfer-bound `sigma_8` alone invalidates it. -/
theorem c1_witness :
    ((update s0 [(keyDeltaC, UVal.q 2), (keyZ, UVal.q 1)]).2.cached
        .delta_halo = false ∧
     (update s0 [(keyDeltaC, UVal.q 2), (keyZ, UVal.q 1)]).2.cached
        .sigma = false ∧
     (update s0 [(keyDeltaC, UVal.q 2), (keyZ, UVal.q 1)]).2.cached
        .sigma_0 = s0.cached .sigma_0) ∧
    (update s0 [(keySigma8, UVal.q 1)]).2.cached .sigma_0 = false :=
  ⟨c1_amended.1 s0 [(keyDeltaC, UVal.q 2), (keyZ, UVal.q 1)] 1
    (by decide) (by decide) (by decide) (by decide),
   c1_amended.2 s0 [(keySigma8, UVal.q 1)]
    (by decide) (by decide) (by decide)⟩

/-! ## Claim C2 -/

/-- C2 counterexample: `update({delta_c: 2, delta_h: 20000})` raises (the
`delta_h` value exceeds 10000), yet `delta_c` — validated and committed
earlier in the loop — remains changed: the batch is not applied atomically. -/
theorem c2_counterexample :
    (update s0 [(keyDeltaC, UVal.q 2), (keyDeltaH, UVal.q 20000)]).1
      = some PyErr.valueError ∧
    (update s0 [(keyDeltaC, UVal.q 2), (keyDeltaH, UVal.q 20000)]).2.delta_c
      = 2 ∧
    ¬ s0.delta_c = 2 := by decide

/-- C2 (amended): `update` applies its entries sequentially and is not
atomic.  Whenever it raises, the batch splits as `done ++ bad :: rest`
where every entry of `done` was validated and committed (with its cache
invalidations), the failing entry `bad` itself changed nothing — the final
state is exactly the state after `done` — and the remaining entries, the
batch-level deletions, and the transfer forwarding were skipped. -/
theorem c2_amended :
    ∀ (batch : List (String × UVal)) (s : MFState) (e : PyErr),
      (update s batch).1 = some e →
      ∃ done bad rest,
        batch = done ++ bad :: rest ∧
        (loopPhase s done).1 = none ∧
        (update s batch).2 = (loopPhase s done).2 ∧
        updateStep (loopPhase s done).2 bad = .error e := by
  intro batch
  induction batch with
  | nil =>
    intro s e h
    have hl : loopPhase s [] = (none, s) := rfl
    rw [update_loop_ok hl] at h
    exact absurd h (by simp)
  | cons kv rest ih =>
    intro s e h
    cases hstep : updateStep s kv with
    | error e0 =>
      have hl : loopPhase s (kv :: rest) = (some e0, s) := by
        unfold loopPhase
        rw [hstep]
      rw [update_loop_err hl] at h ⊢
      have he : e0 = e := by simpa using h
      subst he
      exact ⟨[], kv, rest, rfl, rfl, rfl, hstep⟩
    | ok s2 =>
      have hl : loopPhase s (kv :: rest) = loopPhase s2 rest := by
        show (match updateStep s kv with
          | Except.ok s1 => loopPhase s1 rest
          | Except.error e => (some e, s)) = loopPhase s2 rest
        rw [hstep]
      cases hl2 : loopPhase s2 rest with
      | mk o2 s3 =>
        cases o2 with
        | none =>
          rw [update_loop_ok (hl.trans hl2)] at h
          exact absurd h (by simp)
        | some e2 =>
          have hls : loopPhase s (kv :: rest) = (some e2, s3) := hl.trans hl2
          rw [update_loop_err hls] at h ⊢
          have he : e2 = e := by simpa using h
          subst he
          have h2 : (update s2 rest).1 = some e2 := by
            rw [update_loop_err hl2]
          obtain ⟨done, bad, rest2, hsplit, hdone, hstate, hbad⟩ :=
            ih s2 e2 h2
          have hh : loopPhase s (kv :: done) = loopPhase s2 done := by
            show (match updateStep s kv with
              | Except.ok s1 => loopPhase s1 done
              | Except.error e => (some e, s)) = loopPhase s2 done
            rw [hstep]
          refine ⟨kv :: done, bad, rest2,
            by rw [hsplit, List.cons_append], ?_, ?_, ?_⟩
          · rw [hh]
            exact hdone
          · rw [hh]
            rw [update_loop_err hl2] at hstate
            exact hstate
          · rw [hh]
            exact hbad

/-- Witness for C2 (amended) at a concrete failing batch. -/
theorem c2_witness :
    ∃ done bad rest,
      [(keyDeltaH, UVal.q 20000)] = done ++ bad :: rest ∧
      (loopPhase s0 done).1 = none ∧
      (update s0 [(keyDeltaH, UVal.q 20000)]).2 = (loopPhase s0 done).2 ∧
      updateStep (loopPhase s0 done).2 bad = .error PyErr.valueError :=
  c2_amended [(keyDeltaH, UVal.q 20000)] s0 PyErr.valueError (by decide)

/-! ## Claim C5 -/

/-- C5: the survey-volume-weighted branch of `dndm` (secondary redshift
`z2` and sample count `nz` both supplied) is broken for every valid mass
grid: on the first shell iteration the code executes
`dndm[i] = self.fsigma * self.cosmo.mean_dens * np.abs(self._dlnsdlnm) /
self.M ** 2`, assigning a length-`len(M)` array into one scalar cell of
the 1-D buffer `np.zeros_like(zcentres)`, which raises
`ValueError: setting an array element with a sequence` whenever
`len(M) ≠ 1` — and every valid grid has `len(M) ≥ 2`.  Evaluated here at a
concrete valid state (`z = 0`, `z2 = 1`, `nz = 10`, a 3-point grid). -/
theorem c5_z2_crash :
    dndm_code (some 1) (some 10) (.name stName) (fun _ => [1, 1, 1])
        (fun _ => [1, 1, 1]) [1, 10, 100] 1 0 (fun _ l => l) (fun _ => 0)
        (fun _ _ => 0) = .error PyErr.valueError := by decide

end Hmf
